import Mathlib

/-!
Shallow embedding of the dynconf library (src/python/dynconf/__init__.py)
and proofs about its specified behaviour.

The Python `Config` object keeps an in-memory cache (`self._cache`, a dict
from setting name to decoded string value).  We model that dict as an
association list with Python dict semantics (update in place, `del` raises
`KeyError` on an absent key).  Raw etcd keys and values are byte strings,
modelled as `List Nat`; `bytes.decode('utf-8')` is modelled by a strict
UTF-8 decoder returning `Option`, where `none` models the
`UnicodeDecodeError` exception.
-/

/-- A UTF-8 continuation byte: 0x80 to 0xBF. -/
def isCont (b : Nat) : Bool := 0x80 ≤ b && b ≤ 0xBF

/-- Valid second byte for a three-byte sequence with lead byte `b`
(rejects overlong encodings and surrogates, as Python's strict decoder does). -/
def utf8Lead3Ok (b b1 : Nat) : Bool :=
  if b = 0xE0 then 0xA0 ≤ b1 && b1 ≤ 0xBF
  else if b = 0xED then 0x80 ≤ b1 && b1 ≤ 0x9F
  else isCont b1

/-- Valid second byte for a four-byte sequence with lead byte `b`
(rejects overlong encodings and code points above 0x10FFFF). -/
def utf8Lead4Ok (b b1 : Nat) : Bool :=
  if b = 0xF0 then 0x90 ≤ b1 && b1 ≤ 0xBF
  else if b = 0xF4 then 0x80 ≤ b1 && b1 ≤ 0x8F
  else isCont b1

/-- Strict UTF-8 decoding of a byte list, modelling Python
`bytes.decode('utf-8')`: `none` models the `UnicodeDecodeError` raised on
invalid input. -/
def utf8Decode : List Nat → Option (List Char)
  | [] => some []
  | b :: bs =>
    if b ≤ 0x7F then
      (utf8Decode bs).map (fun cs => Char.ofNat b :: cs)
    else if 0xC2 ≤ b && b ≤ 0xDF then
      match bs with
      | b1 :: bs1 =>
        if isCont b1 then
          (utf8Decode bs1).map (fun cs => Char.ofNat ((b - 0xC0) * 0x40 + (b1 - 0x80)) :: cs)
        else none
      | [] => none
    else if 0xE0 ≤ b && b ≤ 0xEF then
      match bs with
      | b1 :: b2 :: bs2 =>
        if utf8Lead3Ok b b1 && isCont b2 then
          (utf8Decode bs2).map
            (fun cs => Char.ofNat ((b - 0xE0) * 0x1000 + (b1 - 0x80) * 0x40 + (b2 - 0x80)) :: cs)
        else none
      | _ => none
    else if 0xF0 ≤ b && b ≤ 0xF4 then
      match bs with
      | b1 :: b2 :: b3 :: bs3 =>
        if utf8Lead4Ok b b1 && isCont b2 && isCont b3 then
          (utf8Decode bs3).map
            (fun cs =>
              Char.ofNat
                ((b - 0xF0) * 0x40000 + (b1 - 0x80) * 0x1000 + (b2 - 0x80) * 0x40 + (b3 - 0x80))
                :: cs)
        else none
      | _ => none
    else none

/-- The settings cache: Python dict from setting name to raw string value,
modelled as an association list (no duplicate keys in any reachable state). -/
abbrev Dict := List (String × String)

/-- Python dict lookup `d[k]` (first binding wins; reachable dicts have no duplicates). -/
def dictGet (d : Dict) (k : String) : Option String :=
  match d with
  | [] => none
  | (k2, v) :: rest => if k2 = k then some v else dictGet rest k

/-- Python dict assignment `d[k] = v`: replace the value of an existing binding, else append. -/
def dictSet (d : Dict) (k v : String) : Dict :=
  match d with
  | [] => [(k, v)]
  | (k2, v2) :: rest => if k2 = k then (k2, v) :: rest else (k2, v2) :: dictSet rest k v

/-- Python `del d[k]`: remove the binding of `k`; `none` models the `KeyError`
raised by Python when `k` is absent. -/
def dictDel (d : Dict) (k : String) : Option Dict :=
  match d with
  | [] => none
  | (k2, v2) :: rest =>
    if k2 = k then some rest else (dictDel rest k).map (fun r => (k2, v2) :: r)

/-- The keys of a dict, in order. -/
def dictKeys (d : Dict) : List String := d.map Prod.fst

theorem dictGet_dictSet_self (d : Dict) (k v : String) :
    dictGet (dictSet d k v) k = some v := by
  induction d with
  | nil => simp [dictSet, dictGet]
  | cons hd tl ih =>
    obtain ⟨k2, v2⟩ := hd
    by_cases h : k2 = k
    · simp [dictSet, dictGet, h]
    · simp [dictSet, dictGet, h, ih]

theorem dictKeys_nil : dictKeys [] = [] := rfl

theorem dictKeys_cons (k2 v2 : String) (tl : Dict) :
    dictKeys ((k2, v2) :: tl) = k2 :: dictKeys tl := rfl

theorem dictGet_dictSet_ne (d : Dict) (k v k2 : String) (h : k2 ≠ k) :
    dictGet (dictSet d k v) k2 = dictGet d k2 := by
  induction d with
  | nil => simp [dictSet, dictGet, Ne.symm h]
  | cons hd tl ih =>
    obtain ⟨k3, v3⟩ := hd
    by_cases h3 : k3 = k
    · subst h3
      simp [dictSet, dictGet, Ne.symm h]
    · by_cases h32 : k3 = k2
      · subst h32
        simp [dictSet, dictGet, h3]
      · simp [dictSet, dictGet, h3, h32, ih]

theorem dictGet_isSome_iff_mem (d : Dict) (k : String) :
    (dictGet d k).isSome ↔ k ∈ dictKeys d := by
  induction d with
  | nil => simp [dictGet, dictKeys_nil]
  | cons hd tl ih =>
    obtain ⟨k2, v2⟩ := hd
    rw [dictKeys_cons]
    by_cases h : k2 = k
    · subst h
      simp [dictGet]
    · rw [List.mem_cons]
      simp [dictGet, h, ih, Ne.symm h]

theorem mem_dictKeys_dictSet (d : Dict) (k v a : String) :
    a ∈ dictKeys (dictSet d k v) ↔ a = k ∨ a ∈ dictKeys d := by
  induction d with
  | nil => simp [dictSet, dictKeys]
  | cons hd tl ih =>
    obtain ⟨k2, v2⟩ := hd
    by_cases h : k2 = k
    · subst h
      rw [dictKeys_cons]
      have : dictSet ((k2, v2) :: tl) k2 v = (k2, v) :: tl := by simp [dictSet]
      rw [this, dictKeys_cons]
      simp only [List.mem_cons]
      tauto
    · have : dictSet ((k2, v2) :: tl) k v = (k2, v2) :: dictSet tl k v := by simp [dictSet, h]
      rw [this, dictKeys_cons, dictKeys_cons]
      simp only [List.mem_cons, ih]
      tauto

theorem dictKeys_nodup_dictSet (d : Dict) (k v : String) (h : (dictKeys d).Nodup) :
    (dictKeys (dictSet d k v)).Nodup := by
  induction d with
  | nil => simp [dictSet, dictKeys]
  | cons hd tl ih =>
    obtain ⟨k2, v2⟩ := hd
    rw [dictKeys_cons, List.nodup_cons] at h
    by_cases hk : k2 = k
    · subst hk
      have : dictSet ((k2, v2) :: tl) k2 v = (k2, v) :: tl := by simp [dictSet]
      rw [this, dictKeys_cons, List.nodup_cons]
      exact h
    · have : dictSet ((k2, v2) :: tl) k v = (k2, v2) :: dictSet tl k v := by
        simp [dictSet, hk]
      rw [this, dictKeys_cons, List.nodup_cons]
      refine ⟨?_, ih h.2⟩
      intro hmem
      rcases (mem_dictKeys_dictSet tl k v k2).mp hmem with rfl | hmem2
      · exact hk rfl
      · exact h.1 hmem2

theorem dictDel_eq_none_iff (d : Dict) (k : String) :
    dictDel d k = none ↔ dictGet d k = none := by
  induction d with
  | nil => simp [dictDel, dictGet]
  | cons hd tl ih =>
    obtain ⟨k2, v2⟩ := hd
    by_cases h : k2 = k
    · simp [dictDel, dictGet, h]
    · simp [dictDel, dictGet, h, ih]

theorem mem_dictKeys_of_dictDel (d r : Dict) (k a : String)
    (hdel : dictDel d k = some r) (ha : a ∈ dictKeys r) : a ∈ dictKeys d := by
  induction d generalizing r with
  | nil => simp [dictDel] at hdel
  | cons hd tl ih =>
    obtain ⟨k2, v2⟩ := hd
    by_cases h : k2 = k
    · simp [dictDel, h] at hdel
      subst hdel
      rw [dictKeys_cons]
      exact List.mem_cons_of_mem _ ha
    · simp [dictDel, h] at hdel
      obtain ⟨r2, hr2, hr⟩ := hdel
      subst hr
      rw [dictKeys_cons] at ha ⊢
      rcases List.mem_cons.mp ha with rfl | ha2
      · exact List.mem_cons_self _ _
      · exact List.mem_cons_of_mem _ (ih r2 hr2 ha2)

theorem dictKeys_nodup_dictDel (d r : Dict) (k : String)
    (hdel : dictDel d k = some r) (h : (dictKeys d).Nodup) : (dictKeys r).Nodup := by
  induction d generalizing r with
  | nil => simp [dictDel] at hdel
  | cons hd tl ih =>
    obtain ⟨k2, v2⟩ := hd
    rw [dictKeys_cons, List.nodup_cons] at h
    by_cases hk : k2 = k
    · simp [dictDel, hk] at hdel
      subst hdel
      exact h.2
    · simp [dictDel, hk] at hdel
      obtain ⟨r2, hr2, hr⟩ := hdel
      subst hr
      rw [dictKeys_cons, List.nodup_cons]
      exact ⟨fun hm => h.1 (mem_dictKeys_of_dictDel tl r2 k k2 hr2 hm), ih r2 hr2 h.2⟩

theorem dictGet_dictDel (d : Dict) (k : String) (hnd : (dictKeys d).Nodup)
    (r : Dict) (hdel : dictDel d k = some r) (k2 : String) :
    dictGet r k2 = if k2 = k then none else dictGet d k2 := by
  induction d generalizing r with
  | nil => simp [dictDel] at hdel
  | cons hd tl ih =>
    obtain ⟨k3, v3⟩ := hd
    rw [dictKeys_cons, List.nodup_cons] at hnd
    by_cases hk : k3 = k
    · have hr : tl = r := by simpa [dictDel, hk] using hdel
      by_cases h2 : k2 = k
      · rw [if_pos h2, ← hr]
        have hmem : k2 ∉ dictKeys tl := by
          rw [h2, ← hk]
          exact hnd.1
        cases hg : dictGet tl k2 with
        | none => rfl
        | some v =>
          have : (dictGet tl k2).isSome := by rw [hg]; rfl
          exact absurd ((dictGet_isSome_iff_mem tl k2).mp this) hmem
      · rw [if_neg h2, ← hr]
        have hne : ¬ k3 = k2 := by
          rw [hk]
          exact fun hh => h2 hh.symm
        simp [dictGet, hne]
    · simp only [dictDel, if_neg hk, Option.map_eq_some'] at hdel
      obtain ⟨r2, hr2, hr⟩ := hdel
      rw [← hr]
      by_cases h32 : k3 = k2
      · have hne : ¬ k2 = k := fun hh => hk (h32.trans hh)
        rw [if_neg hne]
        simp [dictGet, h32]
      · simp only [dictGet, if_neg h32]
        exact ih hnd.2 r2 hr2

/-- One etcd change event delivered to the `Config._watch` callback:
`put` models `etcd3.events.PutEvent`, `delete` models
`etcd3.events.DeleteEvent`.  Both carry raw key and value bytes (the value
of a delete event is decoded too, exactly as the source does). -/
inductive ChangeEvent
  | put (key value : List Nat)
  | delete (key value : List Nat)

/-- Model of `Config._decode_setting`: drops the path-length leading bytes from the raw
key and decodes both the key remainder and the value as UTF-8.  `none` models
the `UnicodeDecodeError` raised on invalid UTF-8 (nothing in the source
catches it). -/
def Config.decode_setting (key value : List Nat) (path_len : Nat) : Option (String × String) :=
  match utf8Decode (List.drop path_len key), utf8Decode value with
  | some k, some v => some (String.mk k, String.mk v)
  | _, _ => none

/-- One step of the event loop in `Config._watch` (lines 131-136): decode the
event, then a Put upserts and a Delete removes via Python `del`.  `none`
models an exception: `UnicodeDecodeError` from decoding, or `KeyError` from
`del self._cache[k]` when `k` is absent. -/
def Config.applyEvent (path_len : Nat) (cache : Dict) : ChangeEvent → Option Dict
  | ChangeEvent.put key value =>
    match Config.decode_setting key value path_len with
    | some (k, v) => some (dictSet cache k v)
    | none => none
  | ChangeEvent.delete key value =>
    match Config.decode_setting key value path_len with
    | some (k, _) => dictDel cache k
    | none => none

/-- The whole event loop of `Config._watch` (lines 128-138): events are
applied in delivery order.  Returns the cache after the last applied event
together with an exception flag: `true` means an exception escaped the
callback, aborting the remaining events (earlier mutations persist). -/
def Config.applyEvents (path_len : Nat) (cache : Dict) : List ChangeEvent → Dict × Bool
  | [] => (cache, false)
  | e :: es =>
    match Config.applyEvent path_len cache e with
    | some cache2 => Config.applyEvents path_len cache2 es
    | none => (cache, true)

/-- The operation an event requests once decoded: `(name, some v)` for a Put,
`(name, none)` for a Delete; `none` if decoding fails. -/
def decodeEvent (path_len : Nat) : ChangeEvent → Option (String × Option String)
  | ChangeEvent.put key value =>
    (Config.decode_setting key value path_len).map (fun kv => (kv.1, some kv.2))
  | ChangeEvent.delete key value =>
    (Config.decode_setting key value path_len).map (fun kv => (kv.1, none))

/-- The last operation among `evs` that touches setting `k`:
`some (some v)` when it is a Put of `v`, `some none` when it is a Delete,
`none` when no event touches `k`. -/
def lastPutValue (path_len : Nat) (k : String) : List ChangeEvent → Option (Option String)
  | [] => none
  | e :: es =>
    match lastPutValue path_len k es with
    | some o => some o
    | none =>
      match decodeEvent path_len e with
      | some (k2, o) => if k2 = k then some o else none
      | none => none

/-- Outcome of `self._etcd.get_prefix(self._path)` as `Config._load` sees it:
either an `Etcd3Exception`, or a sequence of raw `(value, key)` pairs
(the source iterates `for value, meta in seq` and reads `meta.key`). -/
inductive FetchResult
  | err
  | ok (pairs : List (List Nat × List Nat))

/-- How a call to `Config._load` ends. -/
inductive LoadOutcome
  | softFail
  | ok
  | raised
deriving DecidableEq

/-- The ingestion loop of `Config._load` (lines 93-96): upserts each decoded
pair into the cache; a decode failure raises, aborting the loop with the
mutations so far (`true` flag). -/
def Config.loadApply (path_len : Nat) (cache : Dict) :
    List (List Nat × List Nat) → Dict × Bool
  | [] => (cache, false)
  | (value, key) :: rest =>
    match Config.decode_setting key value path_len with
    | some (k, v) => Config.loadApply path_len (dictSet cache k v) rest
    | none => (cache, true)

/-- Model of `Config._load` (lines 78-98): an `Etcd3Exception` from the fetch is
caught, logged, and turned into a `False` return with the cache untouched
(`softFail`); on a successful fetch every pair is ingested (`ok`), except
that a `UnicodeDecodeError` escapes uncaught (`raised`). -/
def Config.load (path_len : Nat) (cache : Dict) : FetchResult → Dict × LoadOutcome
  | FetchResult.err => (cache, LoadOutcome.softFail)
  | FetchResult.ok pairs =>
    match Config.loadApply path_len cache pairs with
    | (c, true) => (c, LoadOutcome.raised)
    | (c, false) => (c, LoadOutcome.ok)

/-- Actions the disconnect handler and reconnect loop of `Config._watch`
perform, in the order performed. -/
inductive LoopAction
  | newClient
  | sleep
  | closed
  | loadAttempt
  | subscribeAttempt
deriving DecidableEq

/-- Oracle for one iteration of the reconnect loop: whether the caller runs
`Config.close` while the `time.sleep(wait_seconds)` is in progress, and the
boolean statuses returned by the external calls `self._load()` and
`self._create_watcher()` in that iteration. -/
structure IterEnv where
  closeDuringSleep : Bool
  loadOk : Bool
  watchOk : Bool

/-- Model of `Config.close` (lines 68-76): a no-op when the watch id is already
absent; otherwise cancels the watch, closes the connection and clears the
watch id.  The returned Bool reports whether the cancel/close calls were
issued. -/
def Config.close (watch_id : Option Unit) : Option Unit × Bool :=
  match watch_id with
  | none => (none, false)
  | some _ => (none, true)

/-- The reconnect loop of `Config._watch` (lines 155-176), the outcomes of
the external calls being supplied by an oracle list with one entry per
iteration (an empty oracle means the loop is still running).  Result: the
final watch id, the trace of actions performed, and whether the loop has
terminated.  Each iteration first checks the watch id and gives up if it is
gone, then sleeps (during which the caller may run `Config.close`), then
reloads; only after a successful reload does it try to re-create the
watcher, and only that success (which stores the fresh watch id) breaks out
of the loop as reconnected. -/
def reconnectLoop (watch_id : Option Unit) :
    List IterEnv → Option Unit × List LoopAction × Bool
  | [] => (watch_id, [], false)
  | env :: rest =>
    if watch_id.isNone then (watch_id, [], true)
    else
      let w1 := if env.closeDuringSleep then (Config.close watch_id).1 else watch_id
      let pre := LoopAction.sleep :: (if env.closeDuringSleep then [LoopAction.closed] else [])
      if env.loadOk = false then
        let r := reconnectLoop w1 rest
        (r.1, pre ++ [LoopAction.loadAttempt] ++ r.2.1, r.2.2)
      else if env.watchOk then
        (some (), pre ++ [LoopAction.loadAttempt, LoopAction.subscribeAttempt], true)
      else
        let r := reconnectLoop w1 rest
        (r.1, pre ++ [LoopAction.loadAttempt, LoopAction.subscribeAttempt] ++ r.2.1, r.2.2)

/-- The no-events branch of `Config._watch` (lines 140-176): log the failed
watch, replace the etcd client with a fresh one, and enter the reconnect
loop.  The cache is taken as an argument to record that this branch never
consults it. -/
def watchNoEvents (_cache : Dict) (watch_id : Option Unit) (envs : List IterEnv) :
    Option Unit × List LoopAction × Bool :=
  let r := reconnectLoop watch_id envs
  (r.1, LoopAction.newClient :: r.2.1, r.2.2)

/-- Once `closed` appears in an action trace, no reload or subscribe attempt
follows it. -/
def noAttemptAfterClose : List LoopAction → Bool
  | [] => true
  | LoopAction.closed :: rest =>
    rest.all (fun a =>
      if a = LoopAction.loadAttempt then false
      else if a = LoopAction.subscribeAttempt then false
      else true)
  | _ :: rest => noAttemptAfterClose rest

/-- Whether a reload attempt occurs before the first backoff sleep of an
action trace. -/
def loadBeforeFirstSleep : List LoopAction → Bool
  | [] => false
  | LoopAction.loadAttempt :: _ => true
  | LoopAction.sleep :: _ => false
  | _ :: rest => loadBeforeFirstSleep rest

/-- A log record emitted by a typed getter. -/
inductive LogEvent
  | notFound (setting : String)
  | invalid (setting : String)
deriving DecidableEq

/-- Model of `Config.settings` (lines 186-188): `self._cache.copy()`.  In this pure
model the returned snapshot is the value of the cache, which no later cache
mutation can affect. -/
def Config.settings (cache : Dict) : Dict := cache

/-- Model of `Config.string` (lines 190-214).  The cache always holds decoded strings
(the ingestion invariant), so the `isinstance(v, six.string_types)` check of
the source always passes here. -/
def Config.string (cache : Dict) (setting : String) (default_value : String) :
    String × Option LogEvent :=
  match dictGet cache setting with
  | none => (default_value, some (LogEvent.notFound setting))
  | some v => (v, none)

/-- Model of `Config.boolean` (lines 216-240): only the exact strings `"true"` and
`"false"` convert; any other value logs invalid and yields the default. -/
def Config.boolean (cache : Dict) (setting : String) (default_value : Bool) :
    Bool × Option LogEvent :=
  match dictGet cache setting with
  | none => (default_value, some (LogEvent.notFound setting))
  | some v =>
    if v = "true" ∨ v = "false" then (decide (v = "true"), none)
    else (default_value, some (LogEvent.invalid setting))

/-- ASCII whitespace accepted around the number by Python `int(str)`
(the model covers the ASCII subset of Python whitespace; all cached values
in the verified claims are ASCII). -/
def isPySpace (c : Char) : Bool :=
  c = ' ' || c = Char.ofNat 9 || c = Char.ofNat 10 ||
  c = Char.ofNat 11 || c = Char.ofNat 12 || c = Char.ofNat 13

/-- Strip leading and trailing whitespace, as Python `int(str)` does. -/
def stripPySpace (cs : List Char) : List Char :=
  ((cs.dropWhile isPySpace).reverse.dropWhile isPySpace).reverse

/-- Numeric value of a list of decimal digits. -/
def digitsVal (ds : List Char) : Nat :=
  ds.foldl (fun a c => a * 10 + (c.toNat - 48)) 0

/-- After the first digit of a Python integer literal: further digits,
possibly separated by single underscores, each underscore followed by a
digit.  Returns the accumulated digit list. -/
def pyDigitsRest (acc : List Char) : List Char → Option (List Char)
  | [] => some acc
  | c :: cs =>
    if c.isDigit then pyDigitsRest (acc ++ [c]) cs
    else if c = '_' then
      match cs with
      | d :: cs2 => if d.isDigit then pyDigitsRest (acc ++ [d]) cs2 else none
      | [] => none
    else none

/-- A nonempty digit run (with underscore separators) and its value. -/
def pyDigits : List Char → Option Nat
  | c :: cs => if c.isDigit then (pyDigitsRest [c] cs).map digitsVal else none
  | [] => none

/-- Python `int(v)` applied to a string: optional surrounding whitespace,
optional sign, base-10 digits with optional single underscore separators.
`none` models the `ValueError` raised on anything else (e.g. `"1.001"`). -/
def pyInt (v : String) : Option Int :=
  match stripPySpace v.data with
  | '+' :: cs => (pyDigits cs).map (fun n => (n : Int))
  | '-' :: cs => (pyDigits cs).map (fun n => -(n : Int))
  | cs => (pyDigits cs).map (fun n => (n : Int))

/-- Model of `Config.integer` (lines 242-266): `int(v)` on the cached string, the
default on a `ValueError`. -/
def Config.integer (cache : Dict) (setting : String) (default_value : Int) :
    Int × Option LogEvent :=
  match dictGet cache setting with
  | none => (default_value, some (LogEvent.notFound setting))
  | some v =>
    match pyInt v with
    | some n => (n, none)
    | none => (default_value, some (LogEvent.invalid setting))

/-- Model of `Config.float` (lines 268-292).  Python's `float(v)` is external library
behaviour; it is abstracted as the `pyFloat` parameter, since no verified
claim depends on the float grammar. -/
def Config.float {α : Type} (pyFloat : String → Option α) (cache : Dict)
    (setting : String) (default_value : α) : α × Option LogEvent :=
  match dictGet cache setting with
  | none => (default_value, some (LogEvent.notFound setting))
  | some v =>
    match pyFloat v with
    | some x => (x, none)
    | none => (default_value, some (LogEvent.invalid setting))

/-- Model of `Config.date` (lines 294-318).  `dateutil.parser.parse` is an external
library; it is abstracted as the `parseDate` parameter. -/
def Config.date {α : Type} (parseDate : String → Option α) (cache : Dict)
    (setting : String) (default_value : α) : α × Option LogEvent :=
  match dictGet cache setting with
  | none => (default_value, some (LogEvent.notFound setting))
  | some v =>
    match parseDate v with
    | some x => (x, none)
    | none => (default_value, some (LogEvent.invalid setting))

/-- Claim C1 counterexample: delivering a single Delete event for setting
"a" (key byte 0x61) to an empty cache makes the watch event loop raise — the
`KeyError` from `del self._cache[k]` — so a Delete for an absent name is not
an error-free no-op. -/
theorem claim1_delete_absent_counterexample :
    Config.applyEvents 0 [] [ChangeEvent.delete [0x61] []] = ([], true) := by
  decide

/-- Claim C1 (amended): applying a Delete change event whose decoded setting
name is absent from the cache leaves the cache unchanged but raises a
`KeyError` (the exception flag is set), for every cache state and every
absent name. -/
theorem claim1_delete_absent (path_len : Nat) (cache : Dict) (key value : List Nat)
    (k v : String) (hdec : Config.decode_setting key value path_len = some (k, v))
    (hget : dictGet cache k = none) :
    Config.applyEvents path_len cache [ChangeEvent.delete key value] = (cache, true) := by
  simp only [Config.applyEvents, Config.applyEvent, hdec,
    (dictDel_eq_none_iff cache k).mpr hget]

theorem claim1_delete_absent_witness :
    Config.decode_setting [0x61] [] 0 = some ("a", "") ∧
    dictGet [("b", "9")] "a" = none ∧
    Config.applyEvents 0 [("b", "9")] [ChangeEvent.delete [0x61] []] = ([("b", "9")], true) :=
  ⟨by decide, by decide,
    claim1_delete_absent 0 [("b", "9")] [0x61] [] "a" "" (by decide) (by decide)⟩

/-- Claim C2 counterexample: a successful fetch whose single pair carries the
invalid UTF-8 key byte 0xFF makes `_load` raise a `UnicodeDecodeError`
(nothing catches it), so not every failure on the load path is absorbed. -/
theorem claim2_no_exception_counterexample :
    (Config.load 0 [] (FetchResult.ok [([], [0xFF])])).2 = LoadOutcome.raised := by
  decide

/-- Claim C2 (amended): only the remote-store errors are absorbed — an
`Etcd3Exception` from the fetch makes `_load` log, leave the cache unchanged
and return a failure status — while a key or value that is not valid UTF-8
raises an exception that propagates out of both the load path and the watch
callback. -/
theorem claim2_exception_propagation :
    (∀ (path_len : Nat) (cache : Dict),
        Config.load path_len cache FetchResult.err = (cache, LoadOutcome.softFail)) ∧
    (Config.load 0 [] (FetchResult.ok [([0xFF], [0x61])])).2 = LoadOutcome.raised ∧
    (Config.applyEvents 0 [] [ChangeEvent.put [0x61] [0xFF]]).2 = true :=
  ⟨fun _ _ => rfl, by decide, by decide⟩

/-- Claim C6: the integer getter converts the cached string "10" to the
integer 10, and on the float-like string "1.001" the conversion fails, the
supplied default being returned with an invalid-setting log (no truncation
of float-like strings). -/
theorem claim6_integer_exact (default_value : Int) :
    Config.integer [("velocity", "10")] "velocity" default_value = (10, none) ∧
    Config.integer [("velocity", "1.001")] "velocity" default_value =
      (default_value, some (LogEvent.invalid "velocity")) :=
  ⟨rfl, rfl⟩

/-- Claim C10: the integer getter also accepts non-canonical digit strings:
surrounding whitespace, an explicit sign, and underscore digit separators all
convert to the corresponding integer instead of falling back to the
default. -/
theorem claim10_integer_lenient (default_value : Int) :
    Config.integer [("velocity", " 10 ")] "velocity" default_value = (10, none) ∧
    Config.integer [("velocity", "+10")] "velocity" default_value = (10, none) ∧
    Config.integer [("velocity", "1_0")] "velocity" default_value = (10, none) :=
  ⟨rfl, rfl, rfl⟩

/-- Claim C7: for every setting name absent from the cache and every supplied
default, each typed getter — string, boolean, integer, float, date — returns
exactly the supplied default and logs a setting-not-found event, without
raising. -/
theorem claim7_absent_returns_default (cache : Dict) (setting : String)
    (h : dictGet cache setting = none) {α β : Type}
    (pyFloat : String → Option α) (parseDate : String → Option β)
    (ds : String) (db : Bool) (di : Int) (df : α) (dd : β) :
    Config.string cache setting ds = (ds, some (LogEvent.notFound setting)) ∧
    Config.boolean cache setting db = (db, some (LogEvent.notFound setting)) ∧
    Config.integer cache setting di = (di, some (LogEvent.notFound setting)) ∧
    Config.float pyFloat cache setting df = (df, some (LogEvent.notFound setting)) ∧
    Config.date parseDate cache setting dd = (dd, some (LogEvent.notFound setting)) := by
  refine ⟨?_, ?_, ?_, ?_, ?_⟩ <;>
    simp [Config.string, Config.boolean, Config.integer, Config.float, Config.date, h]

theorem claim7_absent_returns_default_witness :
    dictGet [] "x" = none ∧
    Config.string [] "x" "d" = ("d", some (LogEvent.notFound "x")) ∧
    Config.boolean [] "x" true = (true, some (LogEvent.notFound "x")) ∧
    Config.integer [] "x" 7 = (7, some (LogEvent.notFound "x")) ∧
    Config.float (fun _ => (none : Option Nat)) [] "x" 3 = (3, some (LogEvent.notFound "x")) ∧
    Config.date (fun _ => (none : Option Nat)) [] "x" 5 = (5, some (LogEvent.notFound "x")) := by
  have h := claim7_absent_returns_default [] "x" rfl
    (fun _ => (none : Option Nat)) (fun _ => (none : Option Nat)) "d" true 7 3 5
  exact ⟨rfl, h.1, h.2.1, h.2.2.1, h.2.2.2.1, h.2.2.2.2⟩

/-- Claim C4 counterexample: a no-events batch arriving while the cache is
empty and the watch is active produces no reload attempt before the first
backoff sleep — the code enters the reconnect loop directly, with no
opportunistic reload. -/
theorem claim4_opportunistic_reload_counterexample :
    loadBeforeFirstSleep (watchNoEvents [] (some ()) [⟨false, true, true⟩]).2.1 = false := by
  decide

/-- Claim C4 (amended): on a batch carrying no event payload the Synchronizer
logs the disconnect, replaces the etcd client, and enters the reconnect loop
directly; whatever the cache contents — in particular even when the cache is
empty — no reload attempt happens before the first backoff wait. -/
theorem claim4_no_reload_before_backoff (cache : Dict) (watch_id : Option Unit)
    (envs : List IterEnv) :
    (watchNoEvents cache watch_id envs).2.1 =
      LoopAction.newClient :: (reconnectLoop watch_id envs).2.1 ∧
    loadBeforeFirstSleep (watchNoEvents cache watch_id envs).2.1 = false := by
  constructor
  · rfl
  · show loadBeforeFirstSleep (LoopAction.newClient :: (reconnectLoop watch_id envs).2.1) = false
    rw [show loadBeforeFirstSleep (LoopAction.newClient :: (reconnectLoop watch_id envs).2.1)
        = loadBeforeFirstSleep (reconnectLoop watch_id envs).2.1 from rfl]
    cases envs with
    | nil => rfl
    | cons env rest =>
      by_cases h : watch_id.isNone
      · simp [reconnectLoop, h, loadBeforeFirstSleep]
      · by_cases hl : env.loadOk = false
        · simp [reconnectLoop, h, hl, loadBeforeFirstSleep]
        · by_cases hw : env.watchOk
          · simp [reconnectLoop, h, hl, hw, loadBeforeFirstSleep]
          · simp [reconnectLoop, h, hl, hw, loadBeforeFirstSleep]

/-- Claim C3 counterexample: with close called during the backoff sleep of
the first iteration (whose reload then fails), the loop trace still contains
a reload attempt after the close — further attempts are issued after the
close, contradicting the claim. -/
theorem claim3_close_during_backoff_counterexample :
    noAttemptAfterClose
      (reconnectLoop (some ()) [⟨true, false, false⟩, ⟨false, false, false⟩]).2.1 = false := by
  decide

/-- Claim C3 (amended): when close is called while the backoff wait is in
progress, the current iteration still issues one more reload attempt; if
that reload succeeds, a subscribe attempt follows, and if both succeed the
loop re-establishes the watch and exits as reconnected despite the close;
otherwise the loop observes the close at the next iteration boundary and
terminates with no further attempts. -/
theorem claim3_close_during_backoff (env e2 : IterEnv) (rest : List IterEnv)
    (hclose : env.closeDuringSleep = true) :
    (env.loadOk = true → env.watchOk = true →
      reconnectLoop (some ()) (env :: e2 :: rest) =
        (some (), [LoopAction.sleep, LoopAction.closed, LoopAction.loadAttempt,
          LoopAction.subscribeAttempt], true)) ∧
    (¬(env.loadOk = true ∧ env.watchOk = true) →
      reconnectLoop (some ()) (env :: e2 :: rest) =
        (none, LoopAction.sleep :: LoopAction.closed :: LoopAction.loadAttempt ::
          (if env.loadOk then [LoopAction.subscribeAttempt] else []), true)) := by
  obtain ⟨c, l, w⟩ := env
  simp only [IterEnv.closeDuringSleep] at hclose
  subst hclose
  cases l <;> cases w <;>
    simp [reconnectLoop, Config.close, IterEnv.loadOk, IterEnv.watchOk]

theorem claim3_close_during_backoff_witness :
    IterEnv.closeDuringSleep ⟨true, false, false⟩ = true ∧
    reconnectLoop (some ()) [⟨true, false, false⟩, ⟨false, false, false⟩] =
      (none, [LoopAction.sleep, LoopAction.closed, LoopAction.loadAttempt], true) :=
  ⟨rfl, by
    simpa using
      (claim3_close_during_backoff ⟨true, false, false⟩ ⟨false, false, false⟩ [] rfl).2
        (by simp)⟩

/-- Claim C5: the events Put(a,1), Put(a,2), Delete(a) delivered in that
order are applied to the cache in delivery order without raising: the final
cache has "a" absent and every other key keeps its prior value. -/
theorem claim5_ordering (cache : Dict) (hnd : (dictKeys cache).Nodup) :
    (Config.applyEvents 0 cache
      [ChangeEvent.put [0x61] [0x31], ChangeEvent.put [0x61] [0x32],
        ChangeEvent.delete [0x61] []]).2 = false ∧
    dictGet (Config.applyEvents 0 cache
      [ChangeEvent.put [0x61] [0x31], ChangeEvent.put [0x61] [0x32],
        ChangeEvent.delete [0x61] []]).1 "a" = none ∧
    ∀ k : String, k ≠ "a" →
      dictGet (Config.applyEvents 0 cache
        [ChangeEvent.put [0x61] [0x31], ChangeEvent.put [0x61] [0x32],
          ChangeEvent.delete [0x61] []]).1 k = dictGet cache k := by
  have hd1 : Config.decode_setting [0x61] [0x31] 0 = some ("a", "1") := by decide
  have hd2 : Config.decode_setting [0x61] [0x32] 0 = some ("a", "2") := by decide
  have hd3 : Config.decode_setting [0x61] [] 0 = some ("a", "") := by decide
  have hnd2 : (dictKeys (dictSet (dictSet cache "a" "1") "a" "2")).Nodup :=
    dictKeys_nodup_dictSet _ _ _ (dictKeys_nodup_dictSet _ _ _ hnd)
  have hget : dictGet (dictSet (dictSet cache "a" "1") "a" "2") "a" = some "2" :=
    dictGet_dictSet_self _ _ _
  obtain ⟨r, hr⟩ : ∃ r, dictDel (dictSet (dictSet cache "a" "1") "a" "2") "a" = some r := by
    cases hd : dictDel (dictSet (dictSet cache "a" "1") "a" "2") "a" with
    | some r => exact ⟨r, rfl⟩
    | none =>
      rw [dictDel_eq_none_iff] at hd
      rw [hd] at hget
      simp at hget
  have happ : Config.applyEvents 0 cache
      [ChangeEvent.put [0x61] [0x31], ChangeEvent.put [0x61] [0x32],
        ChangeEvent.delete [0x61] []] = (r, false) := by
    simp only [Config.applyEvents, Config.applyEvent, hd1, hd2, hd3, hr]
  rw [happ]
  refine ⟨rfl, ?_, ?_⟩
  · rw [dictGet_dictDel _ _ hnd2 _ hr "a"]
    simp
  · intro k hk
    rw [dictGet_dictDel _ _ hnd2 _ hr k, if_neg hk,
      dictGet_dictSet_ne _ _ _ _ hk, dictGet_dictSet_ne _ _ _ _ hk]

theorem claim5_ordering_witness :
    (dictKeys [("b", "9")]).Nodup ∧
    (Config.applyEvents 0 [("b", "9")]
      [ChangeEvent.put [0x61] [0x31], ChangeEvent.put [0x61] [0x32],
        ChangeEvent.delete [0x61] []]).2 = false ∧
    dictGet (Config.applyEvents 0 [("b", "9")]
      [ChangeEvent.put [0x61] [0x31], ChangeEvent.put [0x61] [0x32],
        ChangeEvent.delete [0x61] []]).1 "a" = none ∧
    dictGet (Config.applyEvents 0 [("b", "9")]
      [ChangeEvent.put [0x61] [0x31], ChangeEvent.put [0x61] [0x32],
        ChangeEvent.delete [0x61] []]).1 "b" = some "9" := by
  have h := claim5_ordering [("b", "9")] (by decide)
  exact ⟨by decide, h.1, h.2.1, (h.2.2 "b" (by decide)).trans (by decide)⟩

/-- Applying one event preserves the no-duplicate-keys invariant. -/
theorem applyEvent_some_nodup (path_len : Nat) (cache : Dict) (e : ChangeEvent)
    (cache2 : Dict) (h : Config.applyEvent path_len cache e = some cache2)
    (hnd : (dictKeys cache).Nodup) : (dictKeys cache2).Nodup := by
  cases e with
  | put key value =>
    cases hd : Config.decode_setting key value path_len with
    | none => simp [Config.applyEvent, hd] at h
    | some kv =>
      obtain ⟨k, v⟩ := kv
      simp only [Config.applyEvent, hd] at h
      injection h with h2
      rw [← h2]
      exact dictKeys_nodup_dictSet _ _ _ hnd
  | delete key value =>
    cases hd : Config.decode_setting key value path_len with
    | none => simp [Config.applyEvent, hd] at h
    | some kv =>
      obtain ⟨k, v⟩ := kv
      simp only [Config.applyEvent, hd] at h
      exact dictKeys_nodup_dictDel cache cache2 k h hnd

/-- After a successful (exception-free) run of the watch event loop, a key
is looked up by the last event that touched it: the value of the last Put,
absent after a last Delete, and the prior cache value when no event touched
it. -/
theorem applyEvents_lastPutValue (path_len : Nat) (evs : List ChangeEvent) :
    ∀ cache : Dict, (dictKeys cache).Nodup →
      (Config.applyEvents path_len cache evs).2 = false →
      ∀ k, dictGet (Config.applyEvents path_len cache evs).1 k =
        (match lastPutValue path_len k evs with
          | some o => o
          | none => dictGet cache k) := by
  induction evs with
  | nil =>
    intro cache hnd hok k
    simp [Config.applyEvents, lastPutValue]
  | cons e es ih =>
    intro cache hnd hok k
    cases happ : Config.applyEvent path_len cache e with
    | none =>
      rw [show Config.applyEvents path_len cache (e :: es) = (cache, true) from by
        simp [Config.applyEvents, happ]] at hok
      simp at hok
    | some cache2 =>
      have heq : Config.applyEvents path_len cache (e :: es) =
          Config.applyEvents path_len cache2 es := by
        simp [Config.applyEvents, happ]
      rw [heq] at hok ⊢
      have hnd2 := applyEvent_some_nodup path_len cache e cache2 happ hnd
      rw [ih cache2 hnd2 hok k]
      cases hlast : lastPutValue path_len k es with
      | some o => simp [lastPutValue, hlast]
      | none =>
        simp only [lastPutValue, hlast]
        cases e with
        | put key value =>
          cases hd : Config.decode_setting key value path_len with
          | none => simp [Config.applyEvent, hd] at happ
          | some kv =>
            obtain ⟨k2, v⟩ := kv
            simp only [Config.applyEvent, hd] at happ
            injection happ with happ2
            rw [← happ2]
            simp only [decodeEvent, hd, Option.map_some']
            by_cases hk : k2 = k
            · subst hk
              simp [dictGet_dictSet_self]
            · simp only [if_neg hk]
              exact dictGet_dictSet_ne cache k2 v k (fun hh => hk hh.symm)
        | delete key value =>
          cases hd : Config.decode_setting key value path_len with
          | none => simp [Config.applyEvent, hd] at happ
          | some kv =>
            obtain ⟨k2, v⟩ := kv
            simp only [Config.applyEvent, hd] at happ
            have hchar := dictGet_dictDel cache k2 hnd cache2 happ k
            simp only [decodeEvent, hd, Option.map_some']
            by_cases hk : k2 = k
            · subst hk
              rw [hchar]
              simp
            · simp only [if_neg hk]
              rw [hchar, if_neg (fun hh => hk hh.symm)]

/-- Claim C8: starting from the empty cache, after an exception-free run of
the watch event loop the snapshot returned by `settings()` contains exactly
the names whose last event is a Put — valued by that Put — and nothing else
(a name whose last event is a Delete, or that no event touched, is absent).
The snapshot is a pure value: later cache mutation cannot affect it. -/
theorem claim8_settings_roundtrip (path_len : Nat) (evs : List ChangeEvent)
    (hok : (Config.applyEvents path_len [] evs).2 = false) (k : String) :
    dictGet (Config.settings (Config.applyEvents path_len [] evs).1) k =
      (match lastPutValue path_len k evs with
        | some (some v) => some v
        | _ => none) := by
  have h := applyEvents_lastPutValue path_len evs [] (by simp [dictKeys]) hok k
  rw [show Config.settings (Config.applyEvents path_len [] evs).1
      = (Config.applyEvents path_len [] evs).1 from rfl]
  rw [h]
  cases hlast : lastPutValue path_len k evs with
  | none => simp [dictGet]
  | some o =>
    cases o with
    | none => simp
    | some v => simp

theorem claim8_settings_roundtrip_witness :
    (Config.applyEvents 0 []
      [ChangeEvent.put [0x61] [0x31], ChangeEvent.put [0x62] [0x32],
        ChangeEvent.delete [0x61] []]).2 = false ∧
    dictGet (Config.settings (Config.applyEvents 0 []
      [ChangeEvent.put [0x61] [0x31], ChangeEvent.put [0x62] [0x32],
        ChangeEvent.delete [0x61] []]).1) "a" = none ∧
    dictGet (Config.settings (Config.applyEvents 0 []
      [ChangeEvent.put [0x61] [0x31], ChangeEvent.put [0x62] [0x32],
        ChangeEvent.delete [0x61] []]).1) "b" = some "2" :=
  ⟨by decide,
    (claim8_settings_roundtrip 0
      [ChangeEvent.put [0x61] [0x31], ChangeEvent.put [0x62] [0x32],
        ChangeEvent.delete [0x61] []] (by decide) "a").trans (by decide),
    (claim8_settings_roundtrip 0
      [ChangeEvent.put [0x61] [0x31], ChangeEvent.put [0x62] [0x32],
        ChangeEvent.delete [0x61] []] (by decide) "b").trans (by decide)⟩

/-- The ingestion loop of `_load` only writes the decoded names of the
fetched pairs: a key named by none of them keeps its prior value. -/
theorem loadApply_frame (path_len : Nat) (pairs : List (List Nat × List Nat)) :
    ∀ (cache : Dict) (k : String),
      (∀ p ∈ pairs, ∀ kv, Config.decode_setting p.2 p.1 path_len = some kv → kv.1 ≠ k) →
      dictGet (Config.loadApply path_len cache pairs).1 k = dictGet cache k := by
  induction pairs with
  | nil => intro cache k _; rfl
  | cons p rest ih =>
    intro cache k hfresh
    obtain ⟨value, key⟩ := p
    cases hd : Config.decode_setting key value path_len with
    | none => simp [Config.loadApply, hd]
    | some kv =>
      obtain ⟨k2, v⟩ := kv
      have hne : k2 ≠ k := hfresh (value, key) (List.mem_cons_self _ _) (k2, v) hd
      rw [show Config.loadApply path_len cache ((value, key) :: rest)
          = Config.loadApply path_len (dictSet cache k2 v) rest from by
        simp [Config.loadApply, hd]]
      rw [ih (dictSet cache k2 v) k (fun q hq => hfresh q (List.mem_cons_of_mem _ hq))]
      exact dictGet_dictSet_ne cache k2 v k (Ne.symm hne)

/-- Claim C9: a successful bulk load only upserts the fetched pairs — every
cache key that is not among the decoded names of the fetched sequence keeps
its prior value (in particular, keys deleted remotely while the watch was
down survive a reconnect reload). -/
theorem claim9_load_frame (path_len : Nat) (cache : Dict)
    (pairs : List (List Nat × List Nat)) (k : String)
    (hfresh : ∀ p ∈ pairs, ∀ kv,
      Config.decode_setting p.2 p.1 path_len = some kv → kv.1 ≠ k)
    (hok : (Config.load path_len cache (FetchResult.ok pairs)).2 = LoadOutcome.ok) :
    dictGet (Config.load path_len cache (FetchResult.ok pairs)).1 k = dictGet cache k := by
  have hframe := loadApply_frame path_len pairs cache k hfresh
  cases hla : Config.loadApply path_len cache pairs with
  | mk c b =>
    cases b with
    | true =>
      rw [show (Config.load path_len cache (FetchResult.ok pairs)).2 = LoadOutcome.raised from by
        simp [Config.load, hla]] at hok
      simp at hok
    | false =>
      rw [show Config.load path_len cache (FetchResult.ok pairs) = (c, LoadOutcome.ok) from by
        simp [Config.load, hla]]
      rw [hla] at hframe
      exact hframe

theorem claim9_load_frame_witness :
    (Config.load 0 [("old", "1")] (FetchResult.ok [([0x32], [0x62])])).2 = LoadOutcome.ok ∧
    dictGet (Config.load 0 [("old", "1")]
      (FetchResult.ok [([0x32], [0x62])])).1 "old" = some "1" := by
  have hfresh : ∀ p ∈ [([0x32], [0x62])], ∀ kv,
      Config.decode_setting p.2 p.1 0 = some kv → kv.1 ≠ "old" := by
    intro p hp kv hkv
    rw [List.mem_singleton] at hp
    subst hp
    have h2 : Config.decode_setting [0x62] [0x32] 0 = some ("b", "2") := by decide
    rw [h2] at hkv
    injection hkv with hkv2
    rw [← hkv2]
    decide
  exact ⟨by decide,
    (claim9_load_frame 0 [("old", "1")] [([0x32], [0x62])] "old" hfresh (by decide)).trans
      (by decide)⟩
